import Mathlib

/-!
Verification development for the Next Up schedule engine.

The JavaScript sources are embedded shallowly:

* `scheduleManager.js` (class `ScheduleManager`): time normalization,
  interval matching, countdown formatting, template rendering, the display
  policy and the load/reload state transition.
* `scheduleFileManager.js` (class `ScheduleFileManager`): most-recent
  schedule-file selection and the debounced folder watcher.

Conventions of the embedding:

* JavaScript strings are Lean `String`s; the handful of string primitives
  the code uses (`trim`, `split`, `endsWith`, `includes`, global literal
  `replace`, `padStart(2, '0')`) are defined below over `List Char` with
  JavaScript semantics.
* Code that can `throw` returns `Except String`; the thrown message is the
  error value.
* A numeric value that JavaScript would turn into `NaN` is modelled as
  `none : Option Nat`; comparisons against `NaN` are `false`, exactly as in
  JavaScript. `Number(...)` is modelled for the strings this program feeds
  it: empty / whitespace-only text coerces to `0`, a string of decimal
  digits to its value, and anything else to `NaN` (`none`).
* Reads of the real clock (`new Date()` inside `getTodaySchedule`) are made
  an explicit argument `today : String`, the weekday name of the wall clock
  at call time.  The `dateTime` parameter of the query functions is the
  `Moment` argument (hours, minutes, seconds).
* The file system is made explicit: `FolderEnv` is the folder listing seen
  by `getMostRecentScheduleFile`, `LoadEnv` the outcome of the file read and
  YAML parse seen by `loadSchedule`, and the watcher's event stream is a
  list of timestamped `WatchEvent`s.
-/

/-! ## JavaScript string primitives, over `List Char` -/

/-- Is `pat` a prefix of `l`? (Char-list level, used by the other helpers.) -/
def isPrefixL : List Char → List Char → Bool
  | [], _ => true
  | _ :: _, [] => false
  | a :: as, b :: bs => a = b && isPrefixL as bs

/-- JavaScript `String.prototype.includes(pat)`: does `pat` occur as a
contiguous substring of `l`? -/
def isSubL (pat : List Char) : List Char → Bool
  | [] => isPrefixL pat []
  | c :: cs => isPrefixL pat (c :: cs) || isSubL pat cs

/-- JavaScript `s.includes(pat)`. -/
def jsIncludes (s pat : String) : Bool :=
  isSubL pat.toList s.toList

/-- JavaScript `s.endsWith(suffix)`. -/
def jsEndsWith (s suffix : String) : Bool :=
  isPrefixL suffix.toList.reverse s.toList.reverse

/-- JavaScript `s.trim()`: drop leading and trailing whitespace. -/
def jsTrim (s : String) : String :=
  String.mk (((s.toList.dropWhile Char.isWhitespace).reverse.dropWhile
    Char.isWhitespace).reverse)

/-- JavaScript `s.split(sep)` for a one-character separator: `"a:b" ↦
["a", "b"]`, `":" ↦ ["", ""]`, `"" ↦ [""]`. -/
def splitChar (sep : Char) : List Char → List (List Char)
  | [] => [[]]
  | c :: cs =>
    if c = sep then [] :: splitChar sep cs
    else
      match splitChar sep cs with
      | [] => [[c]]
      | g :: gs => (c :: g) :: gs

/-- JavaScript `s.split(sep)` at the `String` level. -/
def jsSplit (sep : Char) (s : String) : List String :=
  (splitChar sep s.toList).map String.mk

/-- Core of the global literal replace, structurally recursive on a fuel
bound.  Each step either consumes one character or, on a match of the
non-empty pattern, at least one, so any `fuel ≥ s.length` computes the
full replacement; `replaceAllL` below always supplies `s.length`. -/
def replaceAllCore (pat repl : List Char) : Nat → List Char → List Char
  | _, [] => []
  | 0, s => s
  | fuel + 1, c :: cs =>
    if pat ≠ [] ∧ isPrefixL pat (c :: cs) then
      repl ++ replaceAllCore pat repl fuel (List.drop pat.length (c :: cs))
    else
      c :: replaceAllCore pat repl fuel cs

/-- JavaScript `s.replace(/pat/g, repl)` for a fixed literal pattern:
replace every (leftmost, non-overlapping) occurrence of `pat`.  The
patterns the program uses are non-empty literals and its replacement
values contain no `$` escape, so literal replacement is exact. -/
def replaceAllL (pat repl s : List Char) : List Char :=
  replaceAllCore pat repl s.length s

/-- `String`-level global literal replace. -/
def jsReplaceAll (s pat repl : String) : String :=
  String.mk (replaceAllL pat.toList repl.toList s.toList)

/-- JavaScript `String(x).padStart(2, '0')`. -/
def jsPadStart2Zero (s : String) : String :=
  if 2 ≤ s.length then s else String.mk (List.replicate (2 - s.length) '0') ++ s

/-- Numeric value of a decimal digit character. -/
def digitVal (c : Char) : Nat := c.toNat - '0'.toNat

/-- Value of a string of decimal digits. -/
def natOfDigits : List Char → Nat :=
  List.foldl (fun acc c => acc * 10 + digitVal c) 0

/-- JavaScript `Number(s)` on the strings this program feeds it: empty or
whitespace-only text coerces to `0`, a string of decimal digits to its
value, anything else to `NaN` (modelled as `none`).  Signs, fractions and
exotic numeral forms never reach this function. -/
def jsNumberNat (s : String) : Option Nat :=
  let t := jsTrim s
  if t = "" then some 0
  else if t.toList.all Char.isDigit then some (natOfDigits t.toList)
  else none

/-! ## `scheduleFileManager.js` — most-recent schedule file selection -/

/-- The folder listing `getMostRecentScheduleFile` works from:
whether the schedule folder exists (`fs.existsSync`), the folder path, and
the result of `fs.readdirSync` paired with each file's `stats.mtimeMs`
from `fs.statSync` (milliseconds, an integer here; negative values are
pre-epoch timestamps). -/
structure FolderEnv where
  folderExists : Bool
  scheduleFolderPath : String
  files : List (String × Int)
deriving Repr

/-- `path.join(folder, file)` for the separator-free filenames this code
accepts (suspicious names are skipped before joining). -/
def pathJoin (folder file : String) : String :=
  folder ++ "/" ++ file

/-- The loop's security filter: `file.includes('..') || file.includes('/')
|| file.includes('\\')`. -/
def suspiciousName (file : String) : Bool :=
  jsIncludes file ".." || jsIncludes file "/" || jsIncludes file "\\"

/-- The filter `file.endsWith('.yaml') || file.endsWith('.yml')`. -/
def isYamlName (file : String) : Bool :=
  jsEndsWith file ".yaml" || jsEndsWith file ".yml"

/-- The `for (const file of yamlFiles)` loop of `getMostRecentScheduleFile`,
with its two accumulators `mostRecentTime` (initially `0`) and
`mostRecentFile` (initially `null`). -/
def pickMostRecent (folderPath : String) :
    List (String × Int) → Int → Option String → Option String
  | [], _, mostRecentFile => mostRecentFile
  | file :: rest, mostRecentTime, mostRecentFile =>
    if suspiciousName file.1 then
      pickMostRecent folderPath rest mostRecentTime mostRecentFile
    else if mostRecentTime < file.2 then
      pickMostRecent folderPath rest file.2 (some (pathJoin folderPath file.1))
    else
      pickMostRecent folderPath rest mostRecentTime mostRecentFile

/-- `ScheduleFileManager.getMostRecentScheduleFile()`. -/
def getMostRecentScheduleFile (env : FolderEnv) : Option String :=
  if env.folderExists = false then none
  else
    let yamlFiles := env.files.filter (fun file => isYamlName file.1)
    if yamlFiles.isEmpty then none
    else pickMostRecent env.scheduleFolderPath yamlFiles 0 none

/-! ## `scheduleFileManager.js` — debounced folder watch

`watchScheduleFolder` registers an `fs.watch` handler; every event carries
an optional filename.  A qualifying event clears and restarts a single
300 ms `setTimeout`; when a pending timer's deadline passes with no further
qualifying event the registered callback runs once.  We embed the handler
as a state machine over a time-ordered list of events: the timer is the
absolute expiry instant of the single outstanding `setTimeout`, and a
pending timer whose expiry precedes the next observed instant fires. -/

/-- One `fs.watch` event: its arrival time (ms) and the `filename` argument
(`none` models a `null` filename). -/
structure WatchEvent where
  time : Nat
  filename : Option String
deriving Repr, DecidableEq

/-- The handler's guard: `if (!filename || (!filename.endsWith('.yaml') &&
!filename.endsWith('.yml'))) return;`. -/
def qualifiesForReload : Option String → Bool
  | none => false
  | some filename => jsEndsWith filename ".yaml" || jsEndsWith filename ".yml"

/-- Watcher state: the absolute expiry of the single outstanding debounce
timer (if any) and how many times the change callback has run. -/
structure DebounceState where
  debounceExpiry : Option Nat
  callbackCount : Nat
deriving Repr, DecidableEq

/-- Observe one `fs.watch` event at instant `ev.time`: a pending timer whose
expiry already passed fires the callback first; then a qualifying event
does `clearTimeout` + `setTimeout(…, 300)`, restarting the window. -/
def debounceStep (st : DebounceState) (ev : WatchEvent) : DebounceState :=
  let st' :=
    match st.debounceExpiry with
    | some expiry =>
      if expiry < ev.time then
        { debounceExpiry := none, callbackCount := st.callbackCount + 1 }
      else st
    | none => st
  if qualifiesForReload ev.filename then
    { st' with debounceExpiry := some (ev.time + 300) }
  else st'

/-- Total number of callback invocations produced by a time-ordered event
stream, once quiescent: a timer still pending after the last event elapses
uninterrupted and fires once more. -/
def debounceRun (events : List WatchEvent) : Nat :=
  let final := events.foldl debounceStep { debounceExpiry := none, callbackCount := 0 }
  match final.debounceExpiry with
  | some _ => final.callbackCount + 1
  | none => final.callbackCount

/-! ## `scheduleManager.js` — data model -/

/-- One schedule block (a "class" object of the YAML day lists). -/
structure ClassBlock where
  blockName : String
  description : String
  startTime : String
  endTime : String
deriving Repr, DecidableEq

/-- The weekday-keyed schedule object: day name ↦ ordered block list. -/
abbrev ScheduleDoc := List (String × List ClassBlock)

/-- The two config values the query layer reads, after load-time defaults
(`countdownThreshold ??= 30`, `noClassText ??= ':)'`). -/
structure Config where
  countdownThreshold : Int
  noClassText : String
deriving Repr, DecidableEq

/-- The wall-clock components a `Date` argument contributes:
`getHours()`, `getMinutes()`, `getSeconds()`. -/
structure Moment where
  hours : Nat
  minutes : Nat
  seconds : Nat
deriving Repr, DecidableEq

/-! ## `scheduleManager.js` — time normalization -/

/-- The test `/am|pm/i.test(s)`: a case-insensitive `am` or `pm` occurs
somewhere in the text. -/
def hasAmPm : List Char → Bool
  | a :: m :: rest =>
    ((a.toLower = 'a' || a.toLower = 'p') && m.toLower = 'm') || hasAmPm (m :: rest)
  | _ => false

/-- Tail of the 12-hour pattern after the colon: exactly two digits
`(\d{2})`, then `\s*`, then case-insensitive `(am|pm)`.  Returns the
two-digit minute text and the period already lowercased (the code applies
`match[3].toLowerCase()`). -/
def matchMinutesAndPeriod : List Char → Option (String × String)
  | m1 :: m2 :: rest =>
    if m1.isDigit && m2.isDigit then
      match rest.dropWhile Char.isWhitespace with
      | a :: m :: _ =>
        if (a.toLower = 'a' || a.toLower = 'p') && m.toLower = 'm' then
          some (String.mk [m1, m2], String.mk [a.toLower, m.toLower])
        else none
      | _ => none
    else none
  | _ => none

/-- Match `(\d{1,2}):(\d{2})\s*(am|pm)` anchored at the head of the text,
with the regex engine's greedy-then-backtrack choice for `\d{1,2}` (two
digits first).  The hour capture is returned through `parseInt(…, 10)`. -/
def matchTwelveAt (cs : List Char) : Option (Nat × String × String) :=
  (match cs with
   | d1 :: d2 :: c :: rest =>
     if d1.isDigit && d2.isDigit && c = ':' then
       match matchMinutesAndPeriod rest with
       | some (mins, per) => some (digitVal d1 * 10 + digitVal d2, mins, per)
       | none => none
     else none
   | _ => none)
  <|>
  (match cs with
   | d1 :: c :: rest =>
     if d1.isDigit && c = ':' then
       match matchMinutesAndPeriod rest with
       | some (mins, per) => some (digitVal d1, mins, per)
       | none => none
     else none
   | _ => none)

/-- `trimmed.match(/(\d{1,2}):(\d{2})\s*(am|pm)/i)`: the leftmost position
where the pattern matches, scanning left to right. -/
def searchMatch12 : List Char → Option (Nat × String × String)
  | [] => none
  | c :: cs => matchTwelveAt (c :: cs) <|> searchMatch12 cs

/-- The 12→24 hour conversion of `normalizeTo24Hour`: `pm` adds 12 except
for 12 PM, and 12 AM becomes 0. -/
def convertTo24 (hours : Nat) (period : String) : Nat :=
  if period = "pm" ∧ hours ≠ 12 then hours + 12
  else if period = "am" ∧ hours = 12 then 0
  else hours

/-- `ScheduleManager.normalizeTo24Hour(timeStr)`. -/
def normalizeTo24Hour (timeStr : String) : Except String String :=
  let trimmed := jsTrim timeStr
  if hasAmPm trimmed.toList then
    match searchMatch12 trimmed.toList with
    | none => Except.error ("Invalid 12-hour time format: " ++ timeStr)
    | some (hours, minutes, period) =>
      Except.ok (jsPadStart2Zero (toString (convertTo24 hours period)) ++ ":" ++ minutes)
  else
    Except.ok trimmed

/-- `ScheduleManager.timeToMinutes(timeStr)`.  `none` inside the `ok` is
JavaScript's `NaN` (a component of the normalized text was not numeric, or
the minutes component was missing). -/
def timeToMinutes (timeStr : String) : Except String (Option Nat) :=
  match normalizeTo24Hour timeStr with
  | Except.error e => Except.error e
  | Except.ok normalized =>
    match jsSplit ':' normalized with
    | hoursStr :: minutesStr :: _ =>
      Except.ok
        (match jsNumberNat hoursStr, jsNumberNat minutesStr with
         | some hours, some minutes => some (hours * 60 + minutes)
         | _, _ => none)
    | _ => Except.ok none

/-- `ScheduleManager.formatTo12Hour(timeStr)`.  The `none` branches are the
`NaN` propagation of `[hours, minutes] = timeStr.split(':').map(Number)`:
`NaN >= 12` is false (period `AM`), `NaN % 12 || 12` yields `12`, and
`String(NaN)` prints `NaN`. -/
def formatTo12Hour (timeStr : String) : String :=
  let parts := jsSplit ':' timeStr
  let hoursOpt := jsNumberNat (parts.getD 0 "")
  let minutesOpt := match parts with
    | _ :: m :: _ => jsNumberNat m
    | _ => none
  let period := match hoursOpt with
    | some hours => if 12 ≤ hours then "PM" else "AM"
    | none => "AM"
  let displayHours := match hoursOpt with
    | some hours => if hours % 12 = 0 then "12" else toString (hours % 12)
    | none => "12"
  let minutesStr := match minutesOpt with
    | some minutes => jsPadStart2Zero (toString minutes)
    | none => jsPadStart2Zero "NaN"
  displayHours ++ ":" ++ minutesStr ++ " " ++ period

/-- `ScheduleManager.getDayName(date)`: index into the weekday-name array
with `date.getDay()` (always 0–6 for a real `Date`). -/
def getDayName (day : Nat) : String :=
  (["Sunday", "Monday", "Tuesday", "Wednesday", "Thursday", "Friday",
    "Saturday"]).getD day ""

/-- `ScheduleManager.getTodaySchedule()`: `this.schedule[dayName] || []`,
where `dayName` comes from the real clock (`new Date()`), passed here as
`today`. -/
def getTodaySchedule (schedule : ScheduleDoc) (today : String) : List ClassBlock :=
  match schedule.lookup today with
  | some blocks => blocks
  | none => []

/-! ## `scheduleManager.js` — interval matching -/

/-- `Array.prototype.find` over a predicate that can throw: the predicate
runs left to right and a thrown error propagates out of the scan.  The
source's trailing `|| null` is the `Option` itself. -/
def findE {α : Type} (p : α → Except String Bool) : List α → Except String (Option α)
  | [] => Except.ok none
  | x :: xs =>
    match p x with
    | Except.error e => Except.error e
    | Except.ok true => Except.ok (some x)
    | Except.ok false => findE p xs

/-- The arrow predicate of `getCurrentClass`: compute `startMinutes` and
`endMinutes`, then test `currentMinutes >= startMinutes && currentMinutes <
endMinutes` (false whenever either side is `NaN`). -/
def currentClassPred (currentMinutes : Nat) (cls : ClassBlock) : Except String Bool :=
  match timeToMinutes cls.startTime with
  | Except.error e => Except.error e
  | Except.ok startOpt =>
    match timeToMinutes cls.endTime with
    | Except.error e => Except.error e
    | Except.ok endOpt =>
      Except.ok
        (match startOpt, endOpt with
         | some startMinutes, some endMinutes =>
           decide (startMinutes ≤ currentMinutes) && decide (currentMinutes < endMinutes)
         | _, _ => false)

/-- The arrow predicate of `getNextClass`: `startMinutes > currentMinutes`
(false on `NaN`; only the start time is computed). -/
def nextClassPred (currentMinutes : Nat) (cls : ClassBlock) : Except String Bool :=
  match timeToMinutes cls.startTime with
  | Except.error e => Except.error e
  | Except.ok startOpt =>
    Except.ok
      (match startOpt with
       | some startMinutes => decide (currentMinutes < startMinutes)
       | none => false)

/-- `ScheduleManager.getCurrentClass(dateTime)`. -/
def getCurrentClass (schedule : ScheduleDoc) (today : String) (dateTime : Moment) :
    Except String (Option ClassBlock) :=
  let todaySchedule := getTodaySchedule schedule today
  let currentMinutes := dateTime.hours * 60 + dateTime.minutes
  findE (currentClassPred currentMinutes) todaySchedule

/-- `ScheduleManager.getNextClass(dateTime)`. -/
def getNextClass (schedule : ScheduleDoc) (today : String) (dateTime : Moment) :
    Except String (Option ClassBlock) :=
  let todaySchedule := getTodaySchedule schedule today
  let currentMinutes := dateTime.hours * 60 + dateTime.minutes
  findE (nextClassPred currentMinutes) todaySchedule

/-! ## `scheduleManager.js` — countdown formatting -/

/-- The countdown formatting block of `getTimeRemainingInClass` (lines
computing `hours`/`minutes`/`seconds` from `remainingSeconds` and the two
template returns, guarded by `if (remainingSeconds <= 0) return "0:00:00"`). -/
def formatRemainingSeconds (remainingSeconds : Int) : String :=
  if remainingSeconds ≤ 0 then "0:00:00"
  else
    let r := remainingSeconds.toNat
    let hours := r / 3600
    let minutes := (r % 3600) / 60
    let seconds := r % 60
    if 0 < hours then
      toString hours ++ ":" ++ jsPadStart2Zero (toString minutes) ++ ":" ++
        jsPadStart2Zero (toString seconds)
    else
      toString minutes ++ ":" ++ jsPadStart2Zero (toString seconds)

/-- The identical countdown formatting block of `getTimeUntilNextClass`
(duplicated verbatim in the source). -/
def formatUntilSeconds (remainingSeconds : Int) : String :=
  if remainingSeconds ≤ 0 then "0:00:00"
  else
    let r := remainingSeconds.toNat
    let hours := r / 3600
    let minutes := (r % 3600) / 60
    let seconds := r % 60
    if 0 < hours then
      toString hours ++ ":" ++ jsPadStart2Zero (toString minutes) ++ ":" ++
        jsPadStart2Zero (toString seconds)
    else
      toString minutes ++ ":" ++ jsPadStart2Zero (toString seconds)

/-- `ScheduleManager.getTimeRemainingInClass(dateTime)`.  The
`"NaN:NaN"` branch is what the template literals print when
`endMinutes` is `NaN` (`NaN <= 0` and `NaN > 0` are both false); it is
unreachable because `getCurrentClass` only returns a block whose end time
parsed to a number. -/
def getTimeRemainingInClass (schedule : ScheduleDoc) (today : String) (dateTime : Moment) :
    Except String (Option String) :=
  match getCurrentClass schedule today dateTime with
  | Except.error e => Except.error e
  | Except.ok none => Except.ok none
  | Except.ok (some currentClass) =>
    let totalCurrentSeconds : Int :=
      ((dateTime.hours * 60 + dateTime.minutes) * 60 + dateTime.seconds : Nat)
    match timeToMinutes currentClass.endTime with
    | Except.error e => Except.error e
    | Except.ok (some endMinutes) =>
      Except.ok (some (formatRemainingSeconds ((endMinutes * 60 : Nat) - totalCurrentSeconds)))
    | Except.ok none => Except.ok (some "NaN:NaN")

/-- `ScheduleManager.getTimeUntilNextClass(dateTime)`; same `NaN`
convention as `getTimeRemainingInClass`. -/
def getTimeUntilNextClass (schedule : ScheduleDoc) (today : String) (dateTime : Moment) :
    Except String (Option String) :=
  match getNextClass schedule today dateTime with
  | Except.error e => Except.error e
  | Except.ok none => Except.ok none
  | Except.ok (some nextClass) =>
    let totalCurrentSeconds : Int :=
      ((dateTime.hours * 60 + dateTime.minutes) * 60 + dateTime.seconds : Nat)
    match timeToMinutes nextClass.startTime with
    | Except.error e => Except.error e
    | Except.ok (some startMinutes) =>
      Except.ok (some (formatUntilSeconds ((startMinutes * 60 : Nat) - totalCurrentSeconds)))
    | Except.ok none => Except.ok (some "NaN:NaN")

/-- `ScheduleManager.getMinutesUntilNextClass(dateTime)`.  The inner `none`
models the `NaN` of an unparseable start time; it is unreachable because
`getNextClass` only returns a block whose start time parsed to a number. -/
def getMinutesUntilNextClass (schedule : ScheduleDoc) (today : String) (dateTime : Moment) :
    Except String (Option Int) :=
  match getNextClass schedule today dateTime with
  | Except.error e => Except.error e
  | Except.ok none => Except.ok none
  | Except.ok (some nextClass) =>
    let currentMinutes : Int := (dateTime.hours * 60 + dateTime.minutes : Nat)
    match timeToMinutes nextClass.startTime with
    | Except.error e => Except.error e
    | Except.ok (some startMinutes) => Except.ok (some ((startMinutes : Int) - currentMinutes))
    | Except.ok none => Except.ok none

/-- `ScheduleManager.getDisplayTime(dateTime)`.  JavaScript notes embedded
here: string concatenation with `null` prints `"null"` (unreachable: a
current class always yields a remaining-time string); the truthiness test
`if (timeUntilNext)` is false for `null` and for the empty string (the
formatter never returns an empty string); and `minutesUntilNext <=
threshold` coerces a `null` left side to `0` (unreachable: a non-null
`timeUntilNext` implies a next class exists). -/
def getDisplayTime (schedule : ScheduleDoc) (config : Config) (today : String)
    (dateTime : Moment) : Except String String :=
  match getCurrentClass schedule today dateTime with
  | Except.error e => Except.error e
  | Except.ok (some _) =>
    match getTimeRemainingInClass schedule today dateTime with
    | Except.error e => Except.error e
    | Except.ok timeRemaining =>
      Except.ok ("Done In: " ++ (match timeRemaining with
        | some s => s
        | none => "null"))
  | Except.ok none =>
    match getTimeUntilNextClass schedule today dateTime with
    | Except.error e => Except.error e
    | Except.ok none => Except.ok config.noClassText
    | Except.ok (some timeUntilNext) =>
      if timeUntilNext = "" then Except.ok config.noClassText
      else
        match getMinutesUntilNextClass schedule today dateTime with
        | Except.error e => Except.error e
        | Except.ok minutesUntilNext =>
          if minutesUntilNext.getD 0 ≤ config.countdownThreshold then
            Except.ok ("Next In: " ++ timeUntilNext)
          else
            Except.ok config.noClassText

/-! ## `scheduleManager.js` — template rendering -/

/-- `ScheduleManager.renderDescriptionTemplate(template, classObj)`: compute
the duration string (negative durations keep JavaScript's
floor-division/remainder split: `Math.floor` is `Int.fdiv`, `%` keeps the
dividend's sign, `Int.tmod`; an unparseable time would print `"NaN"`),
substitute the four literal tokens in sequence, then split on newlines,
trim each line, and keep the non-empty ones.  The source's final
`Array.isArray` guard is constant-true and elided. -/
def renderDescriptionTemplate (template : String) (classObj : ClassBlock) :
    Except String (List String) :=
  match timeToMinutes classObj.startTime with
  | Except.error e => Except.error e
  | Except.ok startOpt =>
    match timeToMinutes classObj.endTime with
    | Except.error e => Except.error e
    | Except.ok endOpt =>
      let durationStr := match startOpt, endOpt with
        | some startMinutes, some endMinutes =>
          let duration : Int := (endMinutes : Int) - (startMinutes : Int)
          let hours := Int.fdiv duration 60
          let minutes := Int.tmod duration 60
          if 0 < hours then toString hours ++ ":" ++ jsPadStart2Zero (toString minutes)
          else toString minutes
        | _, _ => "NaN"
      match normalizeTo24Hour classObj.startTime with
      | Except.error e => Except.error e
      | Except.ok startTime24 =>
        match normalizeTo24Hour classObj.endTime with
        | Except.error e => Except.error e
        | Except.ok endTime24 =>
          let rendered :=
            jsReplaceAll
              (jsReplaceAll
                (jsReplaceAll
                  (jsReplaceAll template "$Block" classObj.blockName)
                  "$Duration" durationStr)
                "$StartTime" (formatTo12Hour startTime24))
              "$EndTime" (formatTo12Hour endTime24)
          Except.ok
            (((jsSplit '\n' rendered).map jsTrim).filter (fun line => 0 < line.length))

/-! ## `scheduleManager.js` — loading and reloading -/

/-- A parsed YAML value, as the dynamically typed object `YAML.parse`
returns. -/
inductive YamlVal where
  | nullV : YamlVal
  | boolV : Bool → YamlVal
  | numV : Int → YamlVal
  | strV : String → YamlVal
  | arrV : List YamlVal → YamlVal
  | objV : List (String × YamlVal) → YamlVal

/-- JavaScript truthiness of a parsed value (`!data`). -/
def truthy : YamlVal → Bool
  | YamlVal.nullV => false
  | YamlVal.boolV b => b
  | YamlVal.numV n => n ≠ 0
  | YamlVal.strV s => s ≠ ""
  | YamlVal.arrV _ => true
  | YamlVal.objV _ => true

/-- `typeof v === 'object'`: true for plain objects, arrays and `null`. -/
def typeofIsObject : YamlVal → Bool
  | YamlVal.nullV => true
  | YamlVal.arrV _ => true
  | YamlVal.objV _ => true
  | _ => false

/-- Property access `v[key]` for the string keys this code reads: `none` is
JavaScript's `undefined` (also for the non-object values, whose prototype
holds none of the keys used here). -/
def getProp (v : YamlVal) (key : String) : Option YamlVal :=
  match v with
  | YamlVal.objV fields => fields.lookup key
  | _ => none

/-- Property assignment on an object's field list (overwrite or append). -/
def setProp : List (String × YamlVal) → String → YamlVal → List (String × YamlVal)
  | [], key, val => [(key, val)]
  | (k, v) :: rest, key, val =>
    if k = key then (k, val) :: rest else (k, v) :: setProp rest key val

/-- `obj[key] ??= dflt` on a plain object: assign only when the property is
absent (`undefined`) or `null`.  A config value that passed validation but
is not a plain object (an array) keeps no named properties in this model. -/
def setDefaultProp (v : YamlVal) (key : String) (dflt : YamlVal) : YamlVal :=
  match v with
  | YamlVal.objV fields =>
    match fields.lookup key with
    | none => YamlVal.objV (setProp fields key dflt)
    | some YamlVal.nullV => YamlVal.objV (setProp fields key dflt)
    | some _ => YamlVal.objV fields
  | other => other

/-- The engine's mutable instance state: `this.schedule` and `this.config`
(both `null` after the constructor until a load succeeds). -/
structure ManagerState where
  schedule : Option YamlVal
  config : Option YamlVal

/-- What the file system contributes to one `loadSchedule` call: the result
of `getMostRecentScheduleFile` and, when a file was found, the combined
outcome of `fs.readFileSync` + `YAML.parse` (`Except.error` for a read or
parse throw). -/
structure LoadEnv where
  userScheduleFile : Option String
  parseResult : Except String YamlVal

/-- `ScheduleManager.loadSchedule()` as a state transition: the returned
state is the instance state after the call, and the `Except` is the call's
outcome (`error` = the rethrown `Failed to load schedule: …`). -/
def loadSchedule (st : ManagerState) (env : LoadEnv) : ManagerState × Except String Unit :=
  match env.userScheduleFile with
  | none => (st, Except.error "Failed to load schedule: No schedule file found in user folder")
  | some _ =>
    match env.parseResult with
    | Except.error e => (st, Except.error ("Failed to load schedule: " ++ e))
    | Except.ok data =>
      if !(truthy data) || !(typeofIsObject data) then
        (st, Except.error "Failed to load schedule: Invalid schedule format: expected object")
      else
        match getProp data "schedule" with
        | none =>
          (st, Except.error
            "Failed to load schedule: Invalid schedule format: missing or invalid schedule property")
        | some scheduleVal =>
          if !(truthy scheduleVal) || !(typeofIsObject scheduleVal) then
            (st, Except.error
              "Failed to load schedule: Invalid schedule format: missing or invalid schedule property")
          else
            match getProp data "config" with
            | none =>
              (st, Except.error
                "Failed to load schedule: Invalid schedule format: missing or invalid config property")
            | some configVal =>
              if !(truthy configVal) || !(typeofIsObject configVal) then
                (st, Except.error
                  "Failed to load schedule: Invalid schedule format: missing or invalid config property")
              else
                let configWithDefaults :=
                  setDefaultProp (setDefaultProp configVal "countdownThreshold" (YamlVal.numV 30))
                    "noClassText" (YamlVal.strV ":)")
                ({ schedule := some scheduleVal, config := some configWithDefaults },
                  Except.ok ())

/-- `ScheduleManager.reloadSchedule()`: `this.loadSchedule()`. -/
def reloadSchedule (st : ManagerState) (env : LoadEnv) : ManagerState × Except String Unit :=
  loadSchedule st env

/-! ## Proof layer: parse-success predicates and find-scan lemmas -/

/-- The time string parses without throwing (`normalizeTo24Hour` does not
raise the 12-hour `ParseError`); the resulting minutes may still be `NaN`. -/
def timeOk (timeStr : String) : Bool :=
  match timeToMinutes timeStr with
  | Except.ok _ => true
  | Except.error _ => false

/-- All start and end times of a block list parse without throwing. -/
def timesOk (l : List ClassBlock) : Prop :=
  ∀ cls ∈ l, timeOk cls.startTime = true ∧ timeOk cls.endTime = true

/-- All start times of a block list parse without throwing (the
`getNextClass` predicate never reads an end time). -/
def startTimesOk (l : List ClassBlock) : Prop :=
  ∀ cls ∈ l, timeOk cls.startTime = true

instance : DecidablePred timesOk := fun l =>
  List.decidableBAll _ l

instance : DecidablePred startTimesOk := fun l =>
  List.decidableBAll _ l

/-- Pure form of the `getCurrentClass` predicate: the block's interval
contains the minute `currentMinutes` (start inclusive, end exclusive),
with minutes computed by `timeToMinutes`; false when a time throws or is
`NaN`. -/
def isCurrentAt (currentMinutes : Nat) (cls : ClassBlock) : Bool :=
  match timeToMinutes cls.startTime, timeToMinutes cls.endTime with
  | Except.ok (some s), Except.ok (some e) =>
    decide (s ≤ currentMinutes) && decide (currentMinutes < e)
  | _, _ => false

/-- Pure form of the `getNextClass` predicate: the block starts strictly
after the minute `currentMinutes`. -/
def isNextAt (currentMinutes : Nat) (cls : ClassBlock) : Bool :=
  match timeToMinutes cls.startTime with
  | Except.ok (some s) => decide (currentMinutes < s)
  | _ => false

theorem currentClassPred_eq_pure (m : Nat) (cls : ClassBlock)
    (hs : timeOk cls.startTime = true) (he : timeOk cls.endTime = true) :
    currentClassPred m cls = Except.ok (isCurrentAt m cls) := by
  unfold timeOk at hs he
  unfold currentClassPred isCurrentAt
  rcases h1 : timeToMinutes cls.startTime with e1 | v1
  · rw [h1] at hs; cases hs
  · rcases h2 : timeToMinutes cls.endTime with e2 | v2
    · rw [h2] at he; cases he
    · cases v1 <;> cases v2 <;> simp

theorem nextClassPred_eq_pure (m : Nat) (cls : ClassBlock)
    (hs : timeOk cls.startTime = true) :
    nextClassPred m cls = Except.ok (isNextAt m cls) := by
  unfold timeOk at hs
  unfold nextClassPred isNextAt
  rcases h1 : timeToMinutes cls.startTime with e1 | v1
  · rw [h1] at hs; cases hs
  · cases v1 <;> simp

theorem findE_eq_find? {α : Type} (p : α → Except String Bool) (q : α → Bool) :
    ∀ l : List α, (∀ x ∈ l, p x = Except.ok (q x)) →
      findE p l = Except.ok (l.find? q) := by
  intro l
  induction l with
  | nil => intro _; rfl
  | cons a as ih =>
    intro h
    have ha := h a (List.mem_cons_self a as)
    unfold findE
    rw [ha]
    cases hq : q a
    · rw [ih (fun x hx => h x (List.mem_cons_of_mem a hx))]
      simp [List.find?_cons, hq]
    · simp [List.find?_cons, hq]

theorem find?_eq_some_split {α : Type} (q : α → Bool) (l : List α) (b : α) :
    l.find? q = some b ↔
      q b = true ∧ ∃ l₁ l₂, l = l₁ ++ b :: l₂ ∧ ∀ c ∈ l₁, q c = false := by
  induction l with
  | nil =>
    constructor
    · intro h; cases h
    · rintro ⟨-, l₁, l₂, h, -⟩
      exact absurd h (by simp)
  | cons a as ih =>
    by_cases ha : q a = true
    · rw [List.find?_cons_of_pos _ ha]
      constructor
      · intro h
        injection h with h
        subst h
        exact ⟨ha, [], as, rfl, by simp⟩
      · rintro ⟨hb, l₁, l₂, heq, hall⟩
        cases l₁ with
        | nil =>
          injection heq with h1 _
          rw [h1]
        | cons c cs =>
          injection heq with h1 _
          have hc := hall c (List.mem_cons_self c cs)
          rw [← h1, ha] at hc
          cases hc
    · rw [List.find?_cons_of_neg _ ha]
      rw [ih]
      constructor
      · rintro ⟨hb, l₁, l₂, heq, hall⟩
        refine ⟨hb, a :: l₁, l₂, by rw [heq]; rfl, ?_⟩
        intro c hc
        rcases List.mem_cons.mp hc with rfl | hc
        · simpa using ha
        · exact hall c hc
      · rintro ⟨hb, l₁, l₂, heq, hall⟩
        cases l₁ with
        | nil =>
          injection heq with h1 _
          subst h1
          exact absurd hb ha
        | cons c cs =>
          injection heq with h1 h2
          subst h1
          exact ⟨hb, cs, l₂, h2, fun x hx => hall x (List.mem_cons_of_mem _ hx)⟩

theorem getCurrentClass_eq_find? (schedule : ScheduleDoc) (today : String)
    (dateTime : Moment) (h : timesOk (getTodaySchedule schedule today)) :
    getCurrentClass schedule today dateTime =
      Except.ok ((getTodaySchedule schedule today).find?
        (isCurrentAt (dateTime.hours * 60 + dateTime.minutes))) := by
  unfold getCurrentClass
  exact findE_eq_find? _ _ _
    (fun cls hc => currentClassPred_eq_pure _ _ (h cls hc).1 (h cls hc).2)

theorem getNextClass_eq_find? (schedule : ScheduleDoc) (today : String)
    (dateTime : Moment) (h : startTimesOk (getTodaySchedule schedule today)) :
    getNextClass schedule today dateTime =
      Except.ok ((getTodaySchedule schedule today).find?
        (isNextAt (dateTime.hours * 60 + dateTime.minutes))) := by
  unfold getNextClass
  exact findE_eq_find? _ _ _ (fun cls hc => nextClassPred_eq_pure _ _ (h cls hc))

theorem isCurrentAt_iff (m : Nat) (cls : ClassBlock) :
    isCurrentAt m cls = true ↔
      ∃ s e, timeToMinutes cls.startTime = Except.ok (some s) ∧
        timeToMinutes cls.endTime = Except.ok (some e) ∧ s ≤ m ∧ m < e := by
  unfold isCurrentAt
  rcases h1 : timeToMinutes cls.startTime with e1 | v1
  · simp
  · rcases h2 : timeToMinutes cls.endTime with e2 | v2
    · cases v1 <;> simp
    · cases v1 <;> cases v2 <;> simp

theorem isNextAt_iff (m : Nat) (cls : ClassBlock) :
    isNextAt m cls = true ↔
      ∃ s, timeToMinutes cls.startTime = Except.ok (some s) ∧ m < s := by
  unfold isNextAt
  rcases h1 : timeToMinutes cls.startTime with e1 | v1
  · simp
  · cases v1 <;> simp

deriving instance DecidableEq for Except

/-! ## Claim C1 — current-class interval matching -/

/-- Claim C1: for every loaded document and moment, `getCurrentClass`
returns a block `b` iff `b` is the first element of today's ordered block
list whose interval satisfies `start ≤ hour*60+minute < end` (minutes via
`timeToMinutes`), and returns none when no element satisfies it; the
membership predicate is inclusive at the start minute and exclusive at the
end minute (at exactly `m = end` the block is no longer current, at
exactly `m = start` it is current). -/
theorem claim_c1 :
    (∀ (schedule : ScheduleDoc) (today : String) (dateTime : Moment) (b : ClassBlock),
      timesOk (getTodaySchedule schedule today) →
      (getCurrentClass schedule today dateTime = Except.ok (some b) ↔
        isCurrentAt (dateTime.hours * 60 + dateTime.minutes) b = true ∧
        ∃ l₁ l₂, getTodaySchedule schedule today = l₁ ++ b :: l₂ ∧
          ∀ c ∈ l₁, isCurrentAt (dateTime.hours * 60 + dateTime.minutes) c = false)) ∧
    (∀ (schedule : ScheduleDoc) (today : String) (dateTime : Moment),
      timesOk (getTodaySchedule schedule today) →
      (getCurrentClass schedule today dateTime = Except.ok none ↔
        ∀ c ∈ getTodaySchedule schedule today,
          isCurrentAt (dateTime.hours * 60 + dateTime.minutes) c = false)) ∧
    (∀ (m : Nat) (cls : ClassBlock),
      isCurrentAt m cls = true ↔
        ∃ s e, timeToMinutes cls.startTime = Except.ok (some s) ∧
          timeToMinutes cls.endTime = Except.ok (some e) ∧ s ≤ m ∧ m < e) ∧
    (∀ (cls : ClassBlock) (s e : Nat),
      timeToMinutes cls.startTime = Except.ok (some s) →
      timeToMinutes cls.endTime = Except.ok (some e) →
      ((isCurrentAt s cls = true ↔ s < e) ∧ isCurrentAt e cls = false)) := by
  refine ⟨?_, ?_, isCurrentAt_iff, ?_⟩
  · intro schedule today dateTime b h
    rw [getCurrentClass_eq_find? schedule today dateTime h]
    constructor
    · intro hfind
      injection hfind with hfind
      exact (find?_eq_some_split _ _ _).mp hfind
    · intro hsplit
      exact congrArg Except.ok ((find?_eq_some_split _ _ _).mpr hsplit)
  · intro schedule today dateTime h
    rw [getCurrentClass_eq_find? schedule today dateTime h]
    constructor
    · intro hfind c hc
      injection hfind with hfind
      simpa using List.find?_eq_none.mp hfind c hc
    · intro hall
      refine congrArg Except.ok (List.find?_eq_none.mpr ?_)
      intro c hc
      simp [hall c hc]
  · intro cls s e hs he
    constructor
    · unfold isCurrentAt
      rw [hs, he]
      simp
    · unfold isCurrentAt
      rw [hs, he]
      simp

/-- Witness for C1: the Scenario-A block 9:00 AM–10:05 AM is current at
9:30 AM (and the hypotheses of `claim_c1` hold for this document). -/
theorem claim_c1_witness :
    timesOk (getTodaySchedule [("Monday", [⟨"A", "", "9:00 AM", "10:05 AM"⟩])] "Monday") ∧
    getCurrentClass [("Monday", [⟨"A", "", "9:00 AM", "10:05 AM"⟩])] "Monday" ⟨9, 30, 0⟩ =
      Except.ok (some ⟨"A", "", "9:00 AM", "10:05 AM"⟩) := by
  refine ⟨by decide, ?_⟩
  exact (claim_c1.1 _ "Monday" ⟨9, 30, 0⟩ _ (by decide)).mpr
    ⟨by decide, [], [], by decide, by simp⟩

/-! ## Claim C4 — next-class first-match scan -/

/-- Claim C4: `getNextClass` returns the first block in today's list order
whose start minute is strictly greater than `hour*60+minute`, or none when
no element qualifies; and, being a first-match scan rather than a
chronological-minimum search, on an unsorted list it can return a block
that is not the chronologically nearest future one (final conjunct:
a concrete document where this happens). -/
theorem claim_c4 :
    (∀ (schedule : ScheduleDoc) (today : String) (dateTime : Moment) (b : ClassBlock),
      startTimesOk (getTodaySchedule schedule today) →
      (getNextClass schedule today dateTime = Except.ok (some b) ↔
        isNextAt (dateTime.hours * 60 + dateTime.minutes) b = true ∧
        ∃ l₁ l₂, getTodaySchedule schedule today = l₁ ++ b :: l₂ ∧
          ∀ c ∈ l₁, isNextAt (dateTime.hours * 60 + dateTime.minutes) c = false)) ∧
    (∀ (schedule : ScheduleDoc) (today : String) (dateTime : Moment),
      startTimesOk (getTodaySchedule schedule today) →
      (getNextClass schedule today dateTime = Except.ok none ↔
        ∀ c ∈ getTodaySchedule schedule today,
          isNextAt (dateTime.hours * 60 + dateTime.minutes) c = false)) ∧
    (∀ (m : Nat) (cls : ClassBlock),
      isNextAt m cls = true ↔
        ∃ s, timeToMinutes cls.startTime = Except.ok (some s) ∧ m < s) ∧
    (∃ (schedule : ScheduleDoc) (today : String) (dateTime : Moment)
        (b other : ClassBlock) (sb so : Nat),
      getNextClass schedule today dateTime = Except.ok (some b) ∧
      other ∈ getTodaySchedule schedule today ∧
      timeToMinutes b.startTime = Except.ok (some sb) ∧
      timeToMinutes other.startTime = Except.ok (some so) ∧
      dateTime.hours * 60 + dateTime.minutes < so ∧ so < sb) := by
  refine ⟨?_, ?_, isNextAt_iff, ?_⟩
  · intro schedule today dateTime b h
    rw [getNextClass_eq_find? schedule today dateTime h]
    constructor
    · intro hfind
      injection hfind with hfind
      exact (find?_eq_some_split _ _ _).mp hfind
    · intro hsplit
      exact congrArg Except.ok ((find?_eq_some_split _ _ _).mpr hsplit)
  · intro schedule today dateTime h
    rw [getNextClass_eq_find? schedule today dateTime h]
    constructor
    · intro hfind c hc
      injection hfind with hfind
      simpa using List.find?_eq_none.mp hfind c hc
    · intro hall
      refine congrArg Except.ok (List.find?_eq_none.mpr ?_)
      intro c hc
      simp [hall c hc]
  · refine ⟨[("Monday", [⟨"L", "", "13:00", "14:00"⟩, ⟨"E", "", "11:00", "12:00"⟩])],
      "Monday", ⟨10, 0, 0⟩, ⟨"L", "", "13:00", "14:00"⟩, ⟨"E", "", "11:00", "12:00"⟩,
      780, 660, by decide, by decide, by decide, by decide, by decide, by decide⟩

/-- Witness for C4: on the same unsorted Monday list, `getNextClass` at
10:00 returns the first-listed 13:00 block. -/
theorem claim_c4_witness :
    startTimesOk (getTodaySchedule
      [("Monday", [⟨"L", "", "13:00", "14:00"⟩, ⟨"E", "", "11:00", "12:00"⟩])] "Monday") ∧
    getNextClass [("Monday", [⟨"L", "", "13:00", "14:00"⟩, ⟨"E", "", "11:00", "12:00"⟩])]
      "Monday" ⟨10, 0, 0⟩ = Except.ok (some ⟨"L", "", "13:00", "14:00"⟩) := by
  refine ⟨by decide, ?_⟩
  exact (claim_c4.1 _ "Monday" ⟨10, 0, 0⟩ _ (by decide)).mpr
    ⟨by decide, [], [⟨"E", "", "11:00", "12:00"⟩], by decide, by simp⟩

/-! ## Claim C3 — countdown formatting -/

/-- Claim C3: the countdown formatting used by `getTimeRemainingInClass`
and `getTimeUntilNextClass` is identical in both functions; any input
`s ≤ 0` yields exactly `"0:00:00"` (never a negative duration); any
`s > 0` decomposes as `3600*h + 60*m + sec` with `m, sec < 60` and is
rendered `"H:MM:SS"` when `h > 0` and `"M:SS"` when `h = 0`, minutes
unpadded, seconds zero-padded to two digits (the last two conjuncts pin
the padding behaviour). -/
theorem claim_c3 :
    (∀ s : Int, formatRemainingSeconds s = formatUntilSeconds s) ∧
    (∀ s : Int, s ≤ 0 → formatRemainingSeconds s = "0:00:00") ∧
    (∀ s : Int, 0 < s → ∃ h m sec : Nat,
      s = 3600 * h + 60 * m + sec ∧ m < 60 ∧ sec < 60 ∧
      formatRemainingSeconds s =
        (if 0 < h then
          toString h ++ ":" ++ jsPadStart2Zero (toString m) ++ ":" ++
            jsPadStart2Zero (toString sec)
         else toString m ++ ":" ++ jsPadStart2Zero (toString sec))) ∧
    (∀ n : Nat, n < 10 → jsPadStart2Zero (toString n) = "0" ++ toString n) ∧
    (∀ n : Nat, 10 ≤ n → n < 60 → jsPadStart2Zero (toString n) = toString n) := by
  refine ⟨fun s => rfl, ?_, ?_, ?_, ?_⟩
  · intro s hs
    unfold formatRemainingSeconds
    rw [if_pos hs]
  · intro s hs
    refine ⟨s.toNat / 3600, s.toNat % 3600 / 60, s.toNat % 60, ?_, ?_, ?_, ?_⟩
    · omega
    · omega
    · omega
    · unfold formatRemainingSeconds
      rw [if_neg (by omega : ¬ s ≤ 0)]
  · intro n h
    interval_cases n <;> rfl
  · intro n h1 h2
    interval_cases n <;> rfl

/-- Witness for C3: a negative input collapses to `"0:00:00"`, and
`3905` seconds decompose and format per the claim. -/
theorem claim_c3_witness :
    formatRemainingSeconds (-5) = "0:00:00" ∧
    (∃ h m sec : Nat, (3905 : Int) = 3600 * h + 60 * m + sec ∧ m < 60 ∧ sec < 60 ∧
      formatRemainingSeconds 3905 =
        (if 0 < h then
          toString h ++ ":" ++ jsPadStart2Zero (toString m) ++ ":" ++
            jsPadStart2Zero (toString sec)
         else toString m ++ ":" ++ jsPadStart2Zero (toString sec))) :=
  ⟨claim_c3.2.1 (-5) (by decide), claim_c3.2.2.1 3905 (by decide)⟩

/-! ## Claim C2 — the display policy -/

theorem formatUntilSeconds_ne_empty (s : Int) : formatUntilSeconds s ≠ "" := by
  unfold formatUntilSeconds
  split
  · decide
  · dsimp only
    split
    · intro h
      have h2 := congrArg String.length h
      simp only [String.length_append, show (":" : String).length = 1 from rfl,
        show ("" : String).length = 0 from rfl] at h2
      omega
    · intro h
      have h2 := congrArg String.length h
      simp only [String.length_append, show (":" : String).length = 1 from rfl,
        show ("" : String).length = 0 from rfl] at h2
      omega

theorem findE_ok_some {α : Type} (p : α → Except String Bool) :
    ∀ (l : List α) (x : α), findE p l = Except.ok (some x) → p x = Except.ok true := by
  intro l
  induction l with
  | nil => intro x h; cases h
  | cons a as ih =>
    intro x h
    unfold findE at h
    rcases hp : p a with e | b
    · rw [hp] at h; cases h
    · rw [hp] at h
      cases b
      · exact ih x h
      · dsimp only at h
        injection h with h
        injection h with h
        rw [← h]
        exact hp

theorem currentClassPred_true_iff (m : Nat) (cls : ClassBlock) :
    currentClassPred m cls = Except.ok true ↔ isCurrentAt m cls = true := by
  unfold currentClassPred isCurrentAt
  rcases h1 : timeToMinutes cls.startTime with e1 | v1
  · simp
  · rcases h2 : timeToMinutes cls.endTime with e2 | v2
    · cases v1 <;> simp
    · cases v1 <;> cases v2 <;> simp

theorem nextClassPred_true_iff (m : Nat) (cls : ClassBlock) :
    nextClassPred m cls = Except.ok true ↔ isNextAt m cls = true := by
  unfold nextClassPred isNextAt
  rcases h1 : timeToMinutes cls.startTime with e1 | v1
  · simp
  · cases v1 <;> simp

/-- Claim C2: when a current block exists `getDisplayTime` returns
`"Done In: "` plus the remaining-time countdown; when none exists it
returns `"Next In: "` plus the countdown to the next block's start exactly
when a next block exists and the minutes until it are at most
`config.countdownThreshold`, and `config.noClassText` otherwise (threshold
exceeded, or no next block).  The concrete 45-minute / 10-minute scenarios
are instantiated in the witness. -/
theorem claim_c2 :
    ∀ (schedule : ScheduleDoc) (config : Config) (today : String) (dateTime : Moment),
      (∀ c, getCurrentClass schedule today dateTime = Except.ok (some c) →
        ∃ t, getTimeRemainingInClass schedule today dateTime = Except.ok (some t) ∧
          getDisplayTime schedule config today dateTime = Except.ok ("Done In: " ++ t)) ∧
      (getCurrentClass schedule today dateTime = Except.ok none →
        (∀ n k, getNextClass schedule today dateTime = Except.ok (some n) →
          getMinutesUntilNextClass schedule today dateTime = Except.ok (some k) →
          ((k ≤ config.countdownThreshold →
            ∃ t, getTimeUntilNextClass schedule today dateTime = Except.ok (some t) ∧
              getDisplayTime schedule config today dateTime = Except.ok ("Next In: " ++ t)) ∧
           (config.countdownThreshold < k →
            getDisplayTime schedule config today dateTime = Except.ok config.noClassText))) ∧
        (getNextClass schedule today dateTime = Except.ok none →
          getDisplayTime schedule config today dateTime = Except.ok config.noClassText)) := by
  intro schedule config today dateTime
  constructor
  · intro c hcur
    have hcur' := hcur
    unfold getCurrentClass at hcur'
    have hpred := findE_ok_some _ _ c hcur'
    obtain ⟨s, e, hs, he, -, -⟩ :=
      (isCurrentAt_iff _ c).mp ((currentClassPred_true_iff _ c).mp hpred)
    have hrem : ∃ t, getTimeRemainingInClass schedule today dateTime =
        Except.ok (some t) := by
      unfold getTimeRemainingInClass
      rw [hcur]
      dsimp only
      rw [he]
      exact ⟨_, rfl⟩
    obtain ⟨t, hrem⟩ := hrem
    refine ⟨t, hrem, ?_⟩
    unfold getDisplayTime
    rw [hcur]
    dsimp only
    rw [hrem]
  · intro hcur0
    constructor
    · intro n k hnext hmin
      have hnext' := hnext
      unfold getNextClass at hnext'
      have hpred := findE_ok_some _ _ n hnext'
      obtain ⟨s, hs, -⟩ :=
        (isNextAt_iff _ n).mp ((nextClassPred_true_iff _ n).mp hpred)
      have htu : ∃ t, getTimeUntilNextClass schedule today dateTime =
          Except.ok (some t) := by
        unfold getTimeUntilNextClass
        rw [hnext]
        dsimp only
        rw [hs]
        exact ⟨_, rfl⟩
      obtain ⟨t, htu⟩ := htu
      have htne : t ≠ "" := by
        have ht2 := htu
        unfold getTimeUntilNextClass at ht2
        rw [hnext] at ht2
        dsimp only at ht2
        rw [hs] at ht2
        dsimp only at ht2
        injection ht2 with ht2
        injection ht2 with ht2
        rw [← ht2]
        exact formatUntilSeconds_ne_empty _
      constructor
      · intro hk
        refine ⟨t, htu, ?_⟩
        unfold getDisplayTime
        rw [hcur0]
        dsimp only
        rw [htu]
        dsimp only
        rw [if_neg htne, hmin]
        dsimp only
        rw [if_pos (by simpa using hk)]
      · intro hk
        unfold getDisplayTime
        rw [hcur0]
        dsimp only
        rw [htu]
        dsimp only
        rw [if_neg htne, hmin]
        dsimp only
        rw [if_neg (by simpa using not_le.mpr hk)]
    · intro hnext0
      have htu0 : getTimeUntilNextClass schedule today dateTime = Except.ok none := by
        unfold getTimeUntilNextClass
        rw [hnext0]
      unfold getDisplayTime
      rw [hcur0]
      dsimp only
      rw [htu0]

/-- Witness for C2: with threshold 30 and no current block, a next block 45
minutes away yields the no-class text `":)"` (Scenario C) and one 10
minutes away yields `"Next In: 10:00"` (Scenario D). -/
theorem claim_c2_witness :
    getDisplayTime [("Monday", [⟨"B", "", "10:45 AM", "11:45 AM"⟩])] ⟨30, ":)"⟩
      "Monday" ⟨10, 0, 0⟩ = Except.ok ":)" ∧
    getDisplayTime [("Monday", [⟨"B", "", "10:10 AM", "11:45 AM"⟩])] ⟨30, ":)"⟩
      "Monday" ⟨10, 0, 0⟩ = Except.ok ("Next In: " ++ "10:00") := by
  constructor
  · exact ((claim_c2 [("Monday", [⟨"B", "", "10:45 AM", "11:45 AM"⟩])] ⟨30, ":)"⟩
      "Monday" ⟨10, 0, 0⟩).2 (by decide)).1 ⟨"B", "", "10:45 AM", "11:45 AM"⟩ 45
      (by decide) (by decide) |>.2 (by decide)
  · obtain ⟨t, htu, hd⟩ := ((claim_c2 [("Monday", [⟨"B", "", "10:10 AM", "11:45 AM"⟩])]
      ⟨30, ":)"⟩ "Monday" ⟨10, 0, 0⟩).2 (by decide)).1 ⟨"B", "", "10:10 AM", "11:45 AM"⟩ 10
      (by decide) (by decide) |>.1 (by decide)
    have hc : getTimeUntilNextClass [("Monday", [⟨"B", "", "10:10 AM", "11:45 AM"⟩])]
        "Monday" ⟨10, 0, 0⟩ = Except.ok (some "10:00") := by decide
    rw [hc] at htu
    injection htu with htu
    injection htu with htu
    rw [← htu] at hd
    exact hd


/-! ## Claim C5 — 12-hour time normalization -/

theorem digitVal_le_9 (c : Char) (h : c.isDigit = true) : digitVal c ≤ 9 := by
  simp [Char.isDigit] at h
  unfold digitVal
  obtain ⟨h1, h2⟩ := h
  have g1 : ('0' : Char).toNat ≤ c.toNat := h1
  have g2 : c.toNat ≤ ('9' : Char).toNat := h2
  have e1 : ('0' : Char).toNat = 48 := rfl
  have e2 : ('9' : Char).toNat = 57 := rfl
  omega

theorem matchMinutesAndPeriod_shape (cs : List Char) (mins per : String)
    (h : matchMinutesAndPeriod cs = some (mins, per)) :
    (per = "am" ∨ per = "pm") ∧ mins.length = 2 ∧ mins.data.all Char.isDigit = true := by
  rcases cs with _ | ⟨m1, _ | ⟨m2, rest⟩⟩
  · cases h
  · cases h
  · unfold matchMinutesAndPeriod at h
    dsimp only at h
    rcases hd : (m1.isDigit && m2.isDigit) with _ | _
    · rw [hd] at h; simp at h
    · rw [hd] at h
      rw [if_pos rfl] at h
      rcases hdw : rest.dropWhile Char.isWhitespace with _ | ⟨a, _ | ⟨m, rest2⟩⟩
      · rw [hdw] at h; cases h
      · rw [hdw] at h; cases h
      · rw [hdw] at h
        dsimp only at h
        rcases hcond : ((a.toLower = 'a' || a.toLower = 'p') && m.toLower = 'm')
            with _ | _
        · rw [hcond] at h; simp at h
        · rw [hcond] at h
          rw [if_pos rfl] at h
          simp only [Option.some.injEq, Prod.mk.injEq] at h
          obtain ⟨hmins, hper⟩ := h
          simp only [Bool.and_eq_true, Bool.or_eq_true, decide_eq_true_eq] at hd hcond
          refine ⟨?_, ?_, ?_⟩
          · rcases hcond.1 with ha | hp
            · left; rw [← hper, ha, hcond.2]
            · right; rw [← hper, hp, hcond.2]
          · rw [← hmins]; rfl
          · rw [← hmins]
            simp [hd.1, hd.2]

theorem matchTwelveAt_shape (cs : List Char) (h : Nat) (mins per : String)
    (hm : matchTwelveAt cs = some (h, mins, per)) :
    (per = "am" ∨ per = "pm") ∧ mins.length = 2 ∧ mins.data.all Char.isDigit = true ∧
      h < 100 := by
  rcases cs with _ | ⟨d1, _ | ⟨d2, _ | ⟨c3, rest⟩⟩⟩
  · cases hm
  · cases hm
  · unfold matchTwelveAt at hm
    dsimp only at hm
    simp only [Option.none_orElse] at hm
    rcases hcnd : (d1.isDigit && decide (d2 = ':')) with _ | _
    · rw [hcnd] at hm
      rw [if_neg (by simp)] at hm
      cases hm
    · rw [hcnd] at hm
      rw [if_pos rfl] at hm
      rw [show matchMinutesAndPeriod [] = none from rfl] at hm
      cases hm
  · unfold matchTwelveAt at hm
    dsimp only at hm
    rcases hcnd2 : (d1.isDigit && d2.isDigit && decide (c3 = ':')) with _ | _
    · rw [hcnd2] at hm
      rw [if_neg (by simp)] at hm
      simp only [Option.none_orElse] at hm
      rcases hcnd1 : (d1.isDigit && decide (d2 = ':')) with _ | _
      · rw [hcnd1] at hm
        rw [if_neg (by simp)] at hm
        cases hm
      · rw [hcnd1] at hm
        rw [if_pos rfl] at hm
        rcases hmp : matchMinutesAndPeriod (c3 :: rest) with _ | ⟨ms, ps⟩
        · rw [hmp] at hm; cases hm
        · rw [hmp] at hm
          dsimp only at hm
          simp only [Option.some.injEq, Prod.mk.injEq] at hm
          obtain ⟨hh, hmins, hper⟩ := hm
          obtain ⟨hper2, hlen, hdig⟩ := matchMinutesAndPeriod_shape _ ms ps hmp
          simp only [Bool.and_eq_true, decide_eq_true_eq] at hcnd1
          have hd1 := digitVal_le_9 d1 hcnd1.1
          subst hmins; subst hper
          exact ⟨hper2, hlen, hdig, by omega⟩
    · rw [hcnd2] at hm
      rw [if_pos rfl] at hm
      rcases hmp : matchMinutesAndPeriod rest with _ | ⟨ms, ps⟩
      · rw [hmp] at hm
        dsimp only at hm
        simp only [Option.none_orElse] at hm
        rcases hcnd1 : (d1.isDigit && decide (d2 = ':')) with _ | _
        · rw [hcnd1] at hm
          rw [if_neg (by simp)] at hm
          cases hm
        · rw [hcnd1] at hm
          rw [if_pos rfl] at hm
          rcases hmp2 : matchMinutesAndPeriod (c3 :: rest) with _ | ⟨ms, ps⟩
          · rw [hmp2] at hm; cases hm
          · rw [hmp2] at hm
            dsimp only at hm
            simp only [Option.some.injEq, Prod.mk.injEq] at hm
            obtain ⟨hh, hmins, hper⟩ := hm
            obtain ⟨hper2, hlen, hdig⟩ := matchMinutesAndPeriod_shape _ ms ps hmp2
            simp only [Bool.and_eq_true, decide_eq_true_eq] at hcnd1
            have hd1 := digitVal_le_9 d1 hcnd1.1
            subst hmins; subst hper
            exact ⟨hper2, hlen, hdig, by omega⟩
      · rw [hmp] at hm
        dsimp only at hm
        simp only [Option.some_orElse, Option.some.injEq, Prod.mk.injEq] at hm
        obtain ⟨hh, hmins, hper⟩ := hm
        obtain ⟨hper2, hlen, hdig⟩ := matchMinutesAndPeriod_shape _ ms ps hmp
        simp only [Bool.and_eq_true, decide_eq_true_eq] at hcnd2
        have hd1 := digitVal_le_9 d1 hcnd2.1.1
        have hd2 := digitVal_le_9 d2 hcnd2.1.2
        subst hmins; subst hper
        exact ⟨hper2, hlen, hdig, by omega⟩

theorem searchMatch12_shape (cs : List Char) :
    ∀ (h : Nat) (mins per : String), searchMatch12 cs = some (h, mins, per) →
      (per = "am" ∨ per = "pm") ∧ mins.length = 2 ∧
        mins.data.all Char.isDigit = true ∧ h < 100 := by
  induction cs with
  | nil => intro h mins per hh; cases hh
  | cons c cs ih =>
    intro h mins per hh
    unfold searchMatch12 at hh
    rcases hmm : matchTwelveAt (c :: cs) with _ | trip
    · rw [hmm] at hh
      simp only [Option.none_orElse] at hh
      exact ih h mins per hh
    · rw [hmm] at hh
      simp only [Option.some_orElse] at hh
      rw [hh] at hmm
      exact matchTwelveAt_shape _ h mins per hmm

/-- Counterexample to C5 as stated: on marker-free input the function does
not return the input string verbatim — surrounding whitespace is trimmed
first (`" 13:30"` comes back as `"13:30"`, a different string). -/
theorem claim_c5_counterexample :
    normalizeTo24Hour " 13:30" = Except.ok "13:30" ∧
      Except.ok "13:30" ≠ (Except.ok " 13:30" : Except String String) :=
  ⟨by decide, by decide⟩

/-- Claim C5, amended: `normalizeTo24Hour` trims its input first.  If the
trimmed text has no case-insensitive AM/PM marker it is returned as
trimmed, with no further validation; if a marker is present but the
12-hour pattern (1–2 digit hour, colon, exactly 2-digit minute, optional
blanks, marker) matches nowhere in the text, the call fails with the
ParseError; on a match the result is the zero-padded 24-hour rendering
where 12 AM maps to hour 0, 12 PM stays 12, and PM otherwise adds 12
(final conjuncts pin the conversion; the fourth pins the matched shape:
period `am`/`pm`, exactly two digit characters of minutes, hour below
100 from at most two digits). -/
theorem claim_c5 :
    (∀ s : String, hasAmPm (jsTrim s).toList = false →
      normalizeTo24Hour s = Except.ok (jsTrim s)) ∧
    (∀ s : String, hasAmPm (jsTrim s).toList = true →
      searchMatch12 (jsTrim s).toList = none →
      normalizeTo24Hour s = Except.error ("Invalid 12-hour time format: " ++ s)) ∧
    (∀ (s : String) (h : Nat) (mins per : String),
      hasAmPm (jsTrim s).toList = true →
      searchMatch12 (jsTrim s).toList = some (h, mins, per) →
      normalizeTo24Hour s =
        Except.ok (jsPadStart2Zero (toString (convertTo24 h per)) ++ ":" ++ mins)) ∧
    (∀ (cs : List Char) (h : Nat) (mins per : String),
      searchMatch12 cs = some (h, mins, per) →
      (per = "am" ∨ per = "pm") ∧ mins.length = 2 ∧
        mins.data.all Char.isDigit = true ∧ h < 100) ∧
    (convertTo24 12 "am" = 0 ∧ convertTo24 12 "pm" = 12 ∧
      (∀ h : Nat, h ≠ 12 → convertTo24 h "pm" = h + 12) ∧
      (∀ h : Nat, h ≠ 12 → convertTo24 h "am" = h)) := by
  refine ⟨?_, ?_, ?_, fun cs h mins per => searchMatch12_shape cs h mins per,
    by decide, by decide, ?_, ?_⟩
  · intro s hmarker
    unfold normalizeTo24Hour
    dsimp only
    rw [hmarker]
    simp
  · intro s hmarker hsearch
    unfold normalizeTo24Hour
    dsimp only
    rw [hmarker, if_pos rfl, hsearch]
  · intro s h mins per hmarker hsearch
    unfold normalizeTo24Hour
    dsimp only
    rw [hmarker, if_pos rfl, hsearch]
  · intro h hne
    unfold convertTo24
    rw [if_pos ⟨rfl, hne⟩]
  · intro h hne
    unfold convertTo24
    rw [if_neg (by simp), if_neg (by simp [hne])]

/-- Witness for C5: `"9:30 PM"` satisfies the marker and pattern
hypotheses of the amended claim and normalizes to `"21:30"`. -/
theorem claim_c5_witness :
    hasAmPm (jsTrim "9:30 PM").toList = true ∧
    searchMatch12 (jsTrim "9:30 PM").toList = some (9, "30", "pm") ∧
    normalizeTo24Hour "9:30 PM" = Except.ok "21:30" := by
  refine ⟨by decide, by decide, ?_⟩
  have h := claim_c5.2.2.1 "9:30 PM" 9 "30" "pm" (by decide) (by decide)
  exact h.trans (by decide)

/-! ## Claim C6 — what `getDisplayTime` is a function of -/

/-- Counterexample to C6 as stated: `getDisplayTime` is not a function of
its moment argument alone (for a fixed loaded document).  `getTodaySchedule`
reads the real clock (`new Date()`) to pick the weekday, so two calls with
the identical moment argument, made on different wall-clock days, return
different strings for the same document. -/
theorem claim_c6_counterexample :
    getDisplayTime [("Monday", [⟨"A", "", "9:00 AM", "10:05 AM"⟩])] ⟨30, ":)"⟩
        (getDayName 1) ⟨9, 30, 0⟩ ≠
      getDisplayTime [("Monday", [⟨"A", "", "9:00 AM", "10:05 AM"⟩])] ⟨30, ":)"⟩
        (getDayName 2) ⟨9, 30, 0⟩ := by
  decide

/-- Claim C6, amended: `getDisplayTime` is a pure, memoryless function of
the moment argument, the config, and the block list selected by the
wall-clock weekday: any two calls that agree on today's block list, on the
config, and on the moment return the same string — there is no other
hidden state. -/
theorem claim_c6 :
    ∀ (schedule1 schedule2 : ScheduleDoc) (config1 config2 : Config)
      (today1 today2 : String) (dateTime : Moment),
      getTodaySchedule schedule1 today1 = getTodaySchedule schedule2 today2 →
      config1 = config2 →
      getDisplayTime schedule1 config1 today1 dateTime =
        getDisplayTime schedule2 config2 today2 dateTime := by
  intro schedule1 schedule2 config1 config2 today1 today2 dateTime h hc
  subst hc
  have hcur : getCurrentClass schedule1 today1 dateTime =
      getCurrentClass schedule2 today2 dateTime := by
    unfold getCurrentClass
    rw [h]
  have hnext : getNextClass schedule1 today1 dateTime =
      getNextClass schedule2 today2 dateTime := by
    unfold getNextClass
    rw [h]
  have hrem : getTimeRemainingInClass schedule1 today1 dateTime =
      getTimeRemainingInClass schedule2 today2 dateTime := by
    unfold getTimeRemainingInClass
    rw [hcur]
  have htu : getTimeUntilNextClass schedule1 today1 dateTime =
      getTimeUntilNextClass schedule2 today2 dateTime := by
    unfold getTimeUntilNextClass
    rw [hnext]
  have hmin : getMinutesUntilNextClass schedule1 today1 dateTime =
      getMinutesUntilNextClass schedule2 today2 dateTime := by
    unfold getMinutesUntilNextClass
    rw [hnext]
  unfold getDisplayTime
  rw [hcur, hrem, htu, hmin]

/-- Witness for C6 (amended): two documents that give the same list for
the respective wall-clock days produce the same display string. -/
theorem claim_c6_witness :
    getDisplayTime [("Monday", [⟨"A", "", "9:00 AM", "10:05 AM"⟩])] ⟨30, ":)"⟩
        "Monday" ⟨9, 30, 0⟩ =
      getDisplayTime [("Tuesday", [⟨"A", "", "9:00 AM", "10:05 AM"⟩])] ⟨30, ":)"⟩
        "Tuesday" ⟨9, 30, 0⟩ :=
  claim_c6 _ _ _ _ "Monday" "Tuesday" ⟨9, 30, 0⟩ (by decide) rfl

/-! ## Claim C7 — failed loads leave the engine state untouched -/

theorem loadSchedule_state : ∀ (st : ManagerState) (env : LoadEnv),
    (loadSchedule st env).1 = st ∨ (loadSchedule st env).2 = Except.ok () := by
  intro st env
  rcases env with ⟨file, parse⟩
  rcases file with _ | f
  · left; rfl
  · rcases parse with e | data
    · left; rfl
    · unfold loadSchedule
      dsimp only
      rcases hv : (!truthy data || !typeofIsObject data) with _ | _
      · rw [if_neg (by simp)]
        rcases hsp : getProp data "schedule" with _ | sv
        · left; rfl
        · dsimp only
          rcases hv2 : (!truthy sv || !typeofIsObject sv) with _ | _
          · rw [if_neg (by simp)]
            rcases hcp : getProp data "config" with _ | cv
            · left; rfl
            · dsimp only
              rcases hv3 : (!truthy cv || !typeofIsObject cv) with _ | _
              · rw [if_neg (by simp)]
                right; rfl
              · rw [if_pos rfl]
                left; rfl
          · rw [if_pos rfl]
            left; rfl
      · rw [if_pos rfl]
        left; rfl

/-- Claim C7: whenever `loadSchedule` (or `reloadSchedule`) fails — no
candidate file, unreadable/unparseable file, or a top level, `schedule`
key or `config` key that is absent or not an object — the engine's
previously active `schedule`/`config` state is exactly what it was before
the call; a failed (re)load never clears or partially overwrites it. -/
theorem claim_c7 :
    (∀ (st : ManagerState) (env : LoadEnv) (e : String),
      (loadSchedule st env).2 = Except.error e → (loadSchedule st env).1 = st) ∧
    (∀ (st : ManagerState) (env : LoadEnv) (e : String),
      (reloadSchedule st env).2 = Except.error e → (reloadSchedule st env).1 = st) := by
  refine ⟨?_, ?_⟩
  · intro st env e h
    rcases loadSchedule_state st env with h1 | h1
    · exact h1
    · rw [h1] at h; cases h
  · intro st env e h
    unfold reloadSchedule at h ⊢
    rcases loadSchedule_state st env with h1 | h1
    · exact h1
    · rw [h1] at h; cases h

/-- Witness for C7: with no candidate file, the load fails with the
missing-file error and the previously active state is returned intact. -/
theorem claim_c7_witness :
    (loadSchedule ⟨some (YamlVal.objV []), some (YamlVal.objV [])⟩
        ⟨none, Except.error "read failed"⟩).2 =
      Except.error "Failed to load schedule: No schedule file found in user folder" ∧
    (loadSchedule ⟨some (YamlVal.objV []), some (YamlVal.objV [])⟩
        ⟨none, Except.error "read failed"⟩).1 =
      ⟨some (YamlVal.objV []), some (YamlVal.objV [])⟩ :=
  ⟨rfl, claim_c7.1 _ _ _ rfl⟩

/-! ## Claim C8 — description template rendering -/

theorem dropWhile_dropWhile {α : Type} (p : α → Bool) (l : List α) :
    (l.dropWhile p).dropWhile p = l.dropWhile p := by
  induction l with
  | nil => rfl
  | cons a as ih =>
    by_cases h : p a = true
    · simp only [List.dropWhile, h]
      exact ih
    · simp only [List.dropWhile, h]

theorem dropWhile_head_not {α : Type} (p : α → Bool) (l : List α) :
    l.dropWhile p = [] ∨ ∃ a t, l.dropWhile p = a :: t ∧ p a = false := by
  induction l with
  | nil => left; rfl
  | cons a as ih =>
    by_cases h : p a = true
    · simp only [List.dropWhile, h]
      exact ih
    · right
      refine ⟨a, as, ?_, by simpa using h⟩
      simp [List.dropWhile, h]

theorem dropWhile_eq_self_of_prefix {α : Type} (p : α → Bool) (d B : List α)
    (hpre : B <+: d.dropWhile p) : B.dropWhile p = B := by
  cases B with
  | nil => rfl
  | cons b bs =>
    obtain ⟨rest, hrest⟩ := hpre
    rcases dropWhile_head_not p d with h0 | ⟨a, t, heq, hpa⟩
    · rw [h0] at hrest
      simp at hrest
    · rw [heq] at hrest
      have hb : b = a := by
        have := congrArg List.head? hrest
        simpa using this
      rw [← hb] at hpa
      simp [List.dropWhile, hpa]

theorem jsTrim_idem (s : String) : jsTrim (jsTrim s) = jsTrim s := by
  unfold jsTrim
  have htl : ∀ l : List Char, (String.mk l).toList = l := fun _ => rfl
  rw [htl]
  have h1 : ((s.toList.dropWhile Char.isWhitespace).reverse.dropWhile
      Char.isWhitespace).reverse.dropWhile Char.isWhitespace =
      ((s.toList.dropWhile Char.isWhitespace).reverse.dropWhile
        Char.isWhitespace).reverse := by
    apply dropWhile_eq_self_of_prefix Char.isWhitespace s.toList
    have hsuf : (s.toList.dropWhile Char.isWhitespace).reverse.dropWhile
        Char.isWhitespace <:+ (s.toList.dropWhile Char.isWhitespace).reverse :=
      List.dropWhile_suffix _
    have hpre := List.reverse_prefix.mpr hsuf
    rwa [List.reverse_reverse] at hpre
  rw [h1, List.reverse_reverse, dropWhile_dropWhile]

theorem mem_render_lines (rendered line : String)
    (h : line ∈ ((jsSplit '\n' rendered).map jsTrim).filter (fun l => 0 < l.length)) :
    jsTrim line = line ∧ line ≠ "" := by
  rw [List.mem_filter] at h
  obtain ⟨hmem, hlen⟩ := h
  rw [List.mem_map] at hmem
  obtain ⟨y, -, hy⟩ := hmem
  constructor
  · rw [← hy]
    exact jsTrim_idem y
  · intro h0
    rw [h0] at hlen
    simp at hlen

/-- Claim C8: `renderDescriptionTemplate` substitutes the four tokens
`$Block`, `$Duration`, `$StartTime`, `$EndTime`, splits on newlines, trims
each line and discards the empty ones, yielding an ordered list of lines.
In particular the template `"$Block ($Duration)\n$StartTime-$EndTime"`
with block name `A1` and times 09:00–10:05 renders to exactly
`["A1 (1:05)", "9:00 AM-10:05 AM"]` (first conjunct), whitespace and blank
lines are dropped (second conjunct), and every produced line is trimmed
and non-empty (third conjunct). -/
theorem claim_c8 :
    renderDescriptionTemplate "$Block ($Duration)\n$StartTime-$EndTime"
        ⟨"A1", "", "09:00", "10:05"⟩ = Except.ok ["A1 (1:05)", "9:00 AM-10:05 AM"] ∧
    renderDescriptionTemplate "  $Block  \n\n  $StartTime  "
        ⟨"A1", "", "09:00", "10:05"⟩ = Except.ok ["A1", "9:00 AM"] ∧
    (∀ (template : String) (classObj : ClassBlock) (lines : List String),
      renderDescriptionTemplate template classObj = Except.ok lines →
      ∀ line ∈ lines, jsTrim line = line ∧ line ≠ "") := by
  refine ⟨by decide, by decide, ?_⟩
  intro template classObj lines h line hmem
  unfold renderDescriptionTemplate at h
  rcases h1 : timeToMinutes classObj.startTime with e1 | v1 <;> rw [h1] at h
  · cases h
  · rcases h2 : timeToMinutes classObj.endTime with e2 | v2 <;> rw [h2] at h
    · cases h
    · dsimp only at h
      rcases h3 : normalizeTo24Hour classObj.startTime with e3 | n3 <;> rw [h3] at h
      · cases h
      · rcases h4 : normalizeTo24Hour classObj.endTime with e4 | n4 <;> rw [h4] at h
        · cases h
        · dsimp only at h
          injection h with h
          rw [← h] at hmem
          exact mem_render_lines _ line hmem

/-- Witness for C8: the rendered lines of the whitespace-laden template are
`["A1", "9:00 AM"]`, and the trimmed/non-empty property holds of the first
one by the claim theorem. -/
theorem claim_c8_witness :
    jsTrim "A1" = "A1" ∧ "A1" ≠ "" :=
  claim_c8.2.2 "  $Block  \n\n  $StartTime  " ⟨"A1", "", "09:00", "10:05"⟩
    ["A1", "9:00 AM"] (by decide) "A1" (by simp)

/-! ## Claim C9 — most-recent schedule file selection -/

theorem pickMostRecent_spec (folder : String) :
    ∀ (l : List (String × Int)) (bt : Int) (acc : Option String),
    (pickMostRecent folder l bt acc = acc ∧
      ∀ nm t, (nm, t) ∈ l → suspiciousName nm = false → t ≤ bt) ∨
    (∃ nm t, (nm, t) ∈ l ∧ suspiciousName nm = false ∧ bt < t ∧
      pickMostRecent folder l bt acc = some (pathJoin folder nm) ∧
      ∀ nm2 t2, (nm2, t2) ∈ l → suspiciousName nm2 = false → t2 ≤ t) := by
  intro l
  induction l with
  | nil =>
    intro bt acc
    left
    exact ⟨rfl, by simp⟩
  | cons f rest ih =>
    intro bt acc
    rcases f with ⟨nm0, t0⟩
    by_cases hsusp : suspiciousName nm0 = true
    · have hstep : pickMostRecent folder ((nm0, t0) :: rest) bt acc =
          pickMostRecent folder rest bt acc := by
        simp only [pickMostRecent]
        rw [if_pos hsusp]
      rcases ih bt acc with ⟨hpick, hbound⟩ | ⟨nm, t, hmem, hns, hbt, hpick, hbound⟩
      · left
        refine ⟨by rw [hstep]; exact hpick, ?_⟩
        intro nm t hmem hns
        rcases List.mem_cons.mp hmem with heq | hmem2
        · rw [Prod.mk.injEq] at heq
          rw [heq.1] at hns
          rw [hns] at hsusp
          cases hsusp
        · exact hbound nm t hmem2 hns
      · right
        refine ⟨nm, t, List.mem_cons_of_mem _ hmem, hns, hbt,
          by rw [hstep]; exact hpick, ?_⟩
        intro nm2 t2 hm hn
        rcases List.mem_cons.mp hm with heq | hm2
        · rw [Prod.mk.injEq] at heq
          rw [heq.1] at hn
          rw [hn] at hsusp
          cases hsusp
        · exact hbound nm2 t2 hm2 hn
    · have hsusp2 : suspiciousName nm0 = false := by simpa using hsusp
      by_cases hlt : bt < t0
      · have hstep : pickMostRecent folder ((nm0, t0) :: rest) bt acc =
            pickMostRecent folder rest t0 (some (pathJoin folder nm0)) := by
          simp only [pickMostRecent]
          rw [if_neg (by simp [hsusp2]), if_pos hlt]
        rcases ih t0 (some (pathJoin folder nm0)) with
          ⟨hpick, hbound⟩ | ⟨nm, t, hmem, hns, hbt, hpick, hbound⟩
        · right
          refine ⟨nm0, t0, List.mem_cons_self _ _, hsusp2, hlt,
            by rw [hstep]; exact hpick, ?_⟩
          intro nm2 t2 hm hn
          rcases List.mem_cons.mp hm with heq | hm2
          · rw [Prod.mk.injEq] at heq
            rw [heq.2]
          · exact hbound nm2 t2 hm2 hn
        · right
          refine ⟨nm, t, List.mem_cons_of_mem _ hmem, hns, lt_trans hlt hbt,
            by rw [hstep]; exact hpick, ?_⟩
          intro nm2 t2 hm hn
          rcases List.mem_cons.mp hm with heq | hm2
          · rw [Prod.mk.injEq] at heq
            rw [heq.2]
            exact le_of_lt hbt
          · exact hbound nm2 t2 hm2 hn
      · have hstep : pickMostRecent folder ((nm0, t0) :: rest) bt acc =
            pickMostRecent folder rest bt acc := by
          simp only [pickMostRecent]
          rw [if_neg (by simp [hsusp2]), if_neg hlt]
        have hle : t0 ≤ bt := not_lt.mp hlt
        rcases ih bt acc with ⟨hpick, hbound⟩ | ⟨nm, t, hmem, hns, hbt, hpick, hbound⟩
        · left
          refine ⟨by rw [hstep]; exact hpick, ?_⟩
          intro nm2 t2 hm hn
          rcases List.mem_cons.mp hm with heq | hm2
          · rw [Prod.mk.injEq] at heq
            rw [heq.2]
            exact hle
          · exact hbound nm2 t2 hm2 hn
        · right
          refine ⟨nm, t, List.mem_cons_of_mem _ hmem, hns, hbt,
            by rw [hstep]; exact hpick, ?_⟩
          intro nm2 t2 hm hn
          rcases List.mem_cons.mp hm with heq | hm2
          · rw [Prod.mk.injEq] at heq
            rw [heq.2]
            exact le_trans hle (le_of_lt hbt)
          · exact hbound nm2 t2 hm2 hn

/-- Counterexample to C9 as stated: the loop's accumulator starts at
`mostRecentTime = 0` and only a strictly greater `mtimeMs` is ever
selected, so a folder whose only candidate has modification time `0`
(exactly the epoch) yields `none` even though a candidate file with the
greatest timestamp exists. -/
theorem claim_c9_counterexample :
    getMostRecentScheduleFile ⟨true, "folder", [("a.yaml", 0)]⟩ = none ∧
    ("a.yaml", (0 : Int)) ∈ (⟨true, "folder", [("a.yaml", 0)]⟩ : FolderEnv).files ∧
    isYamlName "a.yaml" = true ∧ suspiciousName "a.yaml" = false := by
  refine ⟨by decide, by decide, by decide, by decide⟩

/-- Claim C9, amended: `getMostRecentScheduleFile` returns none when the
folder is missing or holds no candidate (`.yaml`/`.yml`) file; a returned
path is the folder path joined with a candidate, non-suspicious (no `..`
or path separator) filename of positive modification time that is maximal
among all candidate non-suspicious files; and when the folder exists but
none is returned, every candidate non-suspicious file has non-positive
modification time (the epoch quirk the counterexample exhibits). -/
theorem claim_c9 :
    (∀ env : FolderEnv, env.folderExists = false →
      getMostRecentScheduleFile env = none) ∧
    (∀ env : FolderEnv, env.files.filter (fun file => isYamlName file.1) = [] →
      getMostRecentScheduleFile env = none) ∧
    (∀ (env : FolderEnv) (p : String), getMostRecentScheduleFile env = some p →
      ∃ nm t, (nm, t) ∈ env.files ∧ isYamlName nm = true ∧
        suspiciousName nm = false ∧ 0 < t ∧
        p = pathJoin env.scheduleFolderPath nm ∧
        ∀ nm2 t2, (nm2, t2) ∈ env.files → isYamlName nm2 = true →
          suspiciousName nm2 = false → t2 ≤ t) ∧
    (∀ env : FolderEnv, env.folderExists = true →
      getMostRecentScheduleFile env = none →
      ∀ nm t, (nm, t) ∈ env.files → isYamlName nm = true →
        suspiciousName nm = false → t ≤ 0) := by
  refine ⟨?_, ?_, ?_, ?_⟩
  · intro env h
    unfold getMostRecentScheduleFile
    rw [if_pos h]
  · intro env h
    unfold getMostRecentScheduleFile
    by_cases hf : env.folderExists = false
    · rw [if_pos hf]
    · rw [if_neg hf]
      dsimp only
      rw [h]
      rfl
  · intro env p h
    unfold getMostRecentScheduleFile at h
    by_cases hf : env.folderExists = false
    · rw [if_pos hf] at h
      cases h
    · rw [if_neg hf] at h
      dsimp only at h
      by_cases hempty :
          (env.files.filter (fun file => isYamlName file.1)).isEmpty = true
      · rw [if_pos hempty] at h
        cases h
      · rw [if_neg hempty] at h
        rcases pickMostRecent_spec env.scheduleFolderPath
            (env.files.filter (fun file => isYamlName file.1)) 0 none with
          ⟨hpick, -⟩ | ⟨nm, t, hmem, hns, hbt, hpick, hbound⟩
        · rw [hpick] at h
          cases h
        · rw [hpick] at h
          injection h with h
          obtain ⟨hmemf, hyaml⟩ := List.mem_filter.mp hmem
          refine ⟨nm, t, hmemf, by simpa using hyaml, hns, hbt, h.symm, ?_⟩
          intro nm2 t2 hm hy hn
          exact hbound nm2 t2 (List.mem_filter.mpr ⟨hm, by simpa using hy⟩) hn
  · intro env hf h nm t hmem hyaml hns
    unfold getMostRecentScheduleFile at h
    rw [if_neg (by simp [hf])] at h
    dsimp only at h
    by_cases hempty :
        (env.files.filter (fun file => isYamlName file.1)).isEmpty = true
    · exfalso
      have hmemf : (nm, t) ∈ env.files.filter (fun file => isYamlName file.1) :=
        List.mem_filter.mpr ⟨hmem, by simpa using hyaml⟩
      rw [List.isEmpty_iff] at hempty
      rw [hempty] at hmemf
      cases hmemf
    · rw [if_neg hempty] at h
      rcases pickMostRecent_spec env.scheduleFolderPath
          (env.files.filter (fun file => isYamlName file.1)) 0 none with
        ⟨-, hbound⟩ | ⟨nm3, t3, -, -, -, hpick, -⟩
      · exact hbound nm t (List.mem_filter.mpr ⟨hmem, by simpa using hyaml⟩) hns
      · rw [hpick] at h
        cases h

/-- Witness for C9: a missing folder yields none, by the amended claim. -/
theorem claim_c9_witness :
    getMostRecentScheduleFile ⟨false, "folder", [("a.yaml", 3)]⟩ = none :=
  claim_c9.1 ⟨false, "folder", [("a.yaml", 3)]⟩ rfl

/-! ## Claim C10 — debounce of the folder watcher -/

theorem debounceStep_quiet (e0 k : Nat) (ev : WatchEvent)
    (hle : ev.time ≤ e0) (hq : qualifiesForReload ev.filename = true) :
    debounceStep ⟨some e0, k⟩ ev = ⟨some (ev.time + 300), k⟩ := by
  unfold debounceStep
  dsimp only
  rw [hq, if_pos rfl, if_neg (show ¬ e0 < ev.time by omega)]

theorem debounceStep_fire (e0 k : Nat) (ev : WatchEvent)
    (hlt : e0 < ev.time) (hq : qualifiesForReload ev.filename = true) :
    debounceStep ⟨some e0, k⟩ ev = ⟨some (ev.time + 300), k + 1⟩ := by
  unfold debounceStep
  dsimp only
  rw [hq, if_pos rfl, if_pos hlt]

theorem debounceStep_start (k : Nat) (ev : WatchEvent)
    (hq : qualifiesForReload ev.filename = true) :
    debounceStep ⟨none, k⟩ ev = ⟨some (ev.time + 300), k⟩ := by
  unfold debounceStep
  dsimp only
  rw [hq, if_pos rfl]

theorem debounceStep_skip (st : DebounceState) (ev : WatchEvent)
    (hn : st.debounceExpiry = none) (hq : qualifiesForReload ev.filename = false) :
    debounceStep st ev = st := by
  unfold debounceStep
  rw [hn, hq]
  dsimp only
  rw [if_neg (by simp)]

theorem debounce_burst_aux :
    ∀ (events : List WatchEvent) (e0 k : Nat),
      (∀ ev ∈ events, qualifiesForReload ev.filename = true) →
      (∀ ev ∈ events.head?, ev.time ≤ e0) →
      List.Chain' (fun a b => b.time ≤ a.time + 300) events →
      ∃ e1, events.foldl debounceStep ⟨some e0, k⟩ = ⟨some e1, k⟩ := by
  intro events
  induction events with
  | nil => intro e0 k _ _ _; exact ⟨e0, rfl⟩
  | cons ev rest ih =>
    intro e0 k hq hhead hchain
    have hle : ev.time ≤ e0 := hhead ev (by simp)
    rw [List.foldl_cons, debounceStep_quiet e0 k ev hle (hq ev (by simp))]
    apply ih (ev.time + 300) k (fun x hx => hq x (by simp [hx])) ?_ hchain.tail
    intro x hx
    cases rest with
    | nil => cases hx
    | cons r rs =>
      have hx2 : r = x := by simpa using hx
      subst hx2
      exact (List.chain'_cons.mp hchain).1

theorem debounce_spaced_aux :
    ∀ (events : List WatchEvent) (e0 k : Nat),
      (∀ ev ∈ events, qualifiesForReload ev.filename = true) →
      (∀ ev ∈ events.head?, e0 < ev.time) →
      List.Chain' (fun a b => a.time + 300 < b.time) events →
      ∃ e1, events.foldl debounceStep ⟨some e0, k⟩ = ⟨some e1, k + events.length⟩ := by
  intro events
  induction events with
  | nil => intro e0 k _ _ _; exact ⟨e0, by simp⟩
  | cons ev rest ih =>
    intro e0 k hq hhead hchain
    have hlt : e0 < ev.time := hhead ev (by simp)
    rw [List.foldl_cons, debounceStep_fire e0 k ev hlt (hq ev (by simp))]
    have hrec := ih (ev.time + 300) (k + 1) (fun x hx => hq x (by simp [hx])) ?_ hchain.tail
    · obtain ⟨e1, he1⟩ := hrec
      refine ⟨e1, ?_⟩
      rw [he1]
      simp only [List.length_cons]
      congr 1
      omega
    · intro x hx
      cases rest with
      | nil => cases hx
      | cons r rs =>
        have hx2 : r = x := by simpa using hx
        subst hx2
        exact (List.chain'_cons.mp hchain).1

theorem debounce_none_aux :
    ∀ (events : List WatchEvent),
      (∀ ev ∈ events, qualifiesForReload ev.filename = false) →
      events.foldl debounceStep ⟨none, 0⟩ = ⟨none, 0⟩ := by
  intro events
  induction events with
  | nil => intro _; rfl
  | cons ev rest ih =>
    intro hq
    rw [List.foldl_cons, debounceStep_skip _ ev rfl (hq ev (by simp))]
    exact ih (fun x hx => hq x (by simp [hx]))

/-- Claim C10: over a time-ordered event stream, any burst of N ≥ 1
qualifying file events (names ending `.yaml`/`.yml`) whose consecutive
gaps stay within the 300 ms debounce window produces exactly one callback
invocation, fired after the window elapses uninterrupted; qualifying
events spaced strictly farther apart than the window each produce their
own single invocation; and non-qualifying events produce none. -/
theorem claim_c10 :
    (∀ events : List WatchEvent, events ≠ [] →
      (∀ ev ∈ events, qualifiesForReload ev.filename = true) →
      List.Chain' (fun a b => b.time ≤ a.time + 300) events →
      debounceRun events = 1) ∧
    (∀ events : List WatchEvent,
      (∀ ev ∈ events, qualifiesForReload ev.filename = true) →
      List.Chain' (fun a b => a.time + 300 < b.time) events →
      debounceRun events = events.length) ∧
    (∀ events : List WatchEvent,
      (∀ ev ∈ events, qualifiesForReload ev.filename = false) →
      debounceRun events = 0) := by
  refine ⟨?_, ?_, ?_⟩
  · intro events hne hq hchain
    cases events with
    | nil => exact absurd rfl hne
    | cons ev rest =>
      obtain ⟨e1, he1⟩ := debounce_burst_aux rest (ev.time + 300) 0
        (fun x hx => hq x (by simp [hx]))
        (by
          intro x hx
          cases rest with
          | nil => cases hx
          | cons r rs =>
            have hx2 : r = x := by simpa using hx
            subst hx2
            exact (List.chain'_cons.mp hchain).1)
        hchain.tail
      have hfold : (ev :: rest).foldl debounceStep ⟨none, 0⟩ = ⟨some e1, 0⟩ := by
        rw [List.foldl_cons, debounceStep_start 0 ev (hq ev (by simp))]
        exact he1
      unfold debounceRun
      rw [hfold]
  · intro events hq hchain
    cases events with
    | nil => rfl
    | cons ev rest =>
      obtain ⟨e1, he1⟩ := debounce_spaced_aux rest (ev.time + 300) 0
        (fun x hx => hq x (by simp [hx]))
        (by
          intro x hx
          cases rest with
          | nil => cases hx
          | cons r rs =>
            have hx2 : r = x := by simpa using hx
            subst hx2
            exact (List.chain'_cons.mp hchain).1)
        hchain.tail
      have hfold : (ev :: rest).foldl debounceStep ⟨none, 0⟩ =
          ⟨some e1, 0 + rest.length⟩ := by
        rw [List.foldl_cons, debounceStep_start 0 ev (hq ev (by simp))]
        exact he1
      unfold debounceRun
      rw [hfold]
      simp
  · intro events hq
    unfold debounceRun
    rw [debounce_none_aux events hq]

/-- Witness for C10: two qualifying events 100 ms apart collapse to one
invocation; 400 ms apart they produce two. -/
theorem claim_c10_witness :
    debounceRun [⟨0, some "a.yaml"⟩, ⟨100, some "b.yml"⟩] = 1 ∧
    debounceRun [⟨0, some "a.yaml"⟩, ⟨400, some "a.yaml"⟩] = 2 := by
  constructor
  · exact claim_c10.1 _ (by simp) (by decide)
      (by simp only [List.chain'_cons, List.chain'_singleton, and_true]; decide)
  · have h := claim_c10.2.1 [⟨0, some "a.yaml"⟩, ⟨400, some "a.yaml"⟩] (by decide)
      (by simp only [List.chain'_cons, List.chain'_singleton, and_true]; decide)
    simpa using h
